import Mathlib

/-!
Verification of the OntoCodeIndex TypeScript fact extractor
(`ts_extractor/src/collect.ts` and `ts_extractor/src/index.ts`) against its
natural-language specification.

The development shallowly embeds the extractor: strings handed to the
base64 encoder are modelled as their UTF-8 byte lists (`List Nat`, each
element `< 256`), the parsed syntax tree is modelled as a rose tree whose
nodes carry the fields the extractor reads, and the ambient `ts-morph`
type checker is modelled as an explicit resolution map.
-/

namespace OntoCode

/-! ### Symbol identity: `base64Url` and `symbolId` (collect.ts lines 67-79)

`Buffer.from(value).toString("base64")` produces standard RFC 4648 base64
over the UTF-8 bytes of `value`; the subsequent
`.replace(/[+/=]/g, (m) => BASE64_MAP[m])` rewrites each `+` to `-`,
each `/` to `_` and deletes each `=`. -/

/-- The standard base64 alphabet, index 0 to 63. -/
def b64Alphabet : List Char :=
  ['A','B','C','D','E','F','G','H','I','J','K','L','M',
   'N','O','P','Q','R','S','T','U','V','W','X','Y','Z',
   'a','b','c','d','e','f','g','h','i','j','k','l','m',
   'n','o','p','q','r','s','t','u','v','w','x','y','z',
   '0','1','2','3','4','5','6','7','8','9','+','/']

/-- Character for a 6-bit group. -/
def b64Char (n : Nat) : Char := b64Alphabet.getD n 'A'

/-- Position of a character in the base64 alphabet (64 when absent). -/
def b64Index (c : Char) : Nat := b64Alphabet.indexOf c

/-- Standard base64 of a byte list, including `=` padding: three input
bytes become four alphabet characters; a two-byte tail becomes three
characters plus `=`; a one-byte tail becomes two characters plus `==`. -/
def base64Encode : List Nat → List Char
  | a :: b :: c :: rest =>
      b64Char (a / 4) :: b64Char (a % 4 * 16 + b / 16) ::
        b64Char (b % 16 * 4 + c / 64) :: b64Char (c % 64) :: base64Encode rest
  | [a, b] => [b64Char (a / 4), b64Char (a % 4 * 16 + b / 16), b64Char (b % 16 * 4), '=']
  | [a] => [b64Char (a / 4), b64Char (a % 4 * 16), '=', '=']
  | [] => []

/-- The character rewrite of `BASE64_MAP`: `+` to `-`, `/` to `_`, `=`
deleted (`none`), all other characters kept. -/
def base64Map (c : Char) : Option Char :=
  if c = '+' then some '-'
  else if c = '/' then some '_'
  else if c = '=' then none
  else some c

/-- `base64Url` of collect.ts: standard base64 followed by the
character-wise rewrite of `BASE64_MAP`. -/
def base64Url (bytes : List Nat) : List Char :=
  (base64Encode bytes).filterMap base64Map

/-- UTF-8 bytes of a string.  Every string fed to `symbolId` in this
development is ASCII, where the UTF-8 encoding is the codepoint itself. -/
def strBytes (s : String) : List Nat := s.data.map Char.toNat

/-- `symbolId` of collect.ts: `base64Url` over the bytes of
`ts:<kind>:<qualifiedName>`. -/
def symbolId (kind qualifiedName : List Nat) : List Char :=
  base64Url (strBytes "ts:" ++ kind ++ strBytes ":" ++ qualifiedName)

/-- `symbolId` applied to ASCII strings, returning a string token. -/
def symbolIdS (kind qualifiedName : String) : String :=
  ⟨symbolId (strBytes kind) (strBytes qualifiedName)⟩

/-- The closed `kind` vocabulary of `UnitRecord`, as byte strings. -/
def kindVocab : List (List Nat) :=
  [strBytes "callable", strBytes "classifier", strBytes "variable",
   strBytes "parameter", strBytes "type"]

/-! ### Decoding the token (the spec's round-trip property)

The spec describes the inverse: undo the character map (`-` to `+`,
`_` to `/`), restore the `=` padding up to a multiple of four, then
base64-decode four characters into three bytes, with a three- or
two-character-plus-padding tail giving two bytes or one byte. -/

/-- Reverse of the alphabet substitution: `-` to `+`, `_` to `/`. -/
def unmapChar (c : Char) : Char :=
  if c = '-' then '+'
  else if c = '_' then '/'
  else c

/-- Restore stripped `=` padding up to a multiple of four characters. -/
def restorePad (s : List Char) : List Char :=
  s ++ List.replicate ((4 - s.length % 4) % 4) '='

/-- First byte of a decoded quartet. -/
def dByte1 (c1 c2 : Char) : Nat := b64Index c1 * 4 + b64Index c2 / 16

/-- Second byte of a decoded quartet. -/
def dByte2 (c2 c3 : Char) : Nat := b64Index c2 % 16 * 16 + b64Index c3 / 4

/-- Third byte of a decoded quartet. -/
def dByte3 (c3 c4 : Char) : Nat := b64Index c3 % 4 * 64 + b64Index c4

/-- Standard base64 decoding of a padded character list. -/
def base64Decode : List Char → List Nat
  | c1 :: c2 :: c3 :: c4 :: rest =>
      if rest = [] ∧ c3 = '=' then [dByte1 c1 c2]
      else if rest = [] ∧ c4 = '=' then [dByte1 c1 c2, dByte2 c2 c3]
      else dByte1 c1 c2 :: dByte2 c2 c3 :: dByte3 c3 c4 :: base64Decode rest
  | _ => []

/-- Decoder for the url-safe unpadded token: reverse the character map,
restore padding, base64-decode. -/
def base64UrlDecode (s : List Char) : List Nat :=
  base64Decode (restorePad (s.map unmapChar))

/-! ### Round-trip lemmas -/

/-- The alphabet index inverts the alphabet lookup on 6-bit values. -/
theorem b64Index_b64Char : ∀ n < 64, b64Index (b64Char n) = n := by decide

/-- Alphabet characters are never the padding character. -/
theorem b64Char_ne_pad : ∀ n < 64, b64Char n ≠ '=' := by decide

/-- Image of an alphabet character under the url-safe rewrite. -/
def urlChar (n : Nat) : Char := (base64Map (b64Char n)).getD 'A'

/-- On alphabet characters the url-safe rewrite keeps a character
(it never deletes), and `unmapChar` undoes it. -/
theorem base64Map_b64Char :
    ∀ n < 64, base64Map (b64Char n) = some (urlChar n) ∧
      unmapChar (urlChar n) = b64Char n := by decide

/-- Padding restoration skips past a full leading quartet. -/
theorem restorePad_cons4 (c1 c2 c3 c4 : Char) (s : List Char) :
    restorePad (c1 :: c2 :: c3 :: c4 :: s) = c1 :: c2 :: c3 :: c4 :: restorePad s := by
  have h : (s.length + 1 + 1 + 1 + 1) % 4 = s.length % 4 := by omega
  simp [restorePad, h]

/-- The padding character is deleted by the url-safe rewrite. -/
theorem base64Map_pad : base64Map '=' = none := by decide

/-- Decoding inverts encoding: for every byte list, decoding the
url-safe token recovers the bytes. -/
theorem base64UrlDecode_base64Url :
    ∀ x : List Nat, (∀ b ∈ x, b < 256) → base64UrlDecode (base64Url x) = x
  | [] => fun _ => rfl
  | [a] => fun h => by
    have ha : a < 256 := h a (by simp)
    have h1 := base64Map_b64Char (a / 4) (by omega)
    have h2 := base64Map_b64Char (a % 4 * 16) (by omega)
    have e1 : base64Url [a] = [urlChar (a / 4), urlChar (a % 4 * 16)] := by
      simp only [base64Url, base64Encode]
      simp [List.filterMap_cons, h1.1, h2.1, base64Map_pad]
    rw [base64UrlDecode, e1]
    simp only [List.map_cons, List.map_nil, h1.2, h2.2]
    have e2 : restorePad [b64Char (a / 4), b64Char (a % 4 * 16)] =
        [b64Char (a / 4), b64Char (a % 4 * 16), '=', '='] := by
      simp [restorePad, List.replicate]
    rw [e2]
    have e3 : base64Decode [b64Char (a / 4), b64Char (a % 4 * 16), '=', '='] =
        [dByte1 (b64Char (a / 4)) (b64Char (a % 4 * 16))] := by
      simp [base64Decode]
    rw [e3]
    simp only [dByte1, b64Index_b64Char _ (by omega : a / 4 < 64),
      b64Index_b64Char _ (by omega : a % 4 * 16 < 64), List.cons.injEq, and_true]
    omega
  | [a, b] => fun h => by
    have ha : a < 256 := h a (by simp)
    have hb : b < 256 := h b (by simp)
    have h1 := base64Map_b64Char (a / 4) (by omega)
    have h2 := base64Map_b64Char (a % 4 * 16 + b / 16) (by omega)
    have h3 := base64Map_b64Char (b % 16 * 4) (by omega)
    have hne3 : b64Char (b % 16 * 4) ≠ '=' := b64Char_ne_pad _ (by omega)
    have e1 : base64Url [a, b] =
        [urlChar (a / 4), urlChar (a % 4 * 16 + b / 16), urlChar (b % 16 * 4)] := by
      simp only [base64Url, base64Encode]
      simp [List.filterMap_cons, h1.1, h2.1, h3.1, base64Map_pad]
    rw [base64UrlDecode, e1]
    simp only [List.map_cons, List.map_nil, h1.2, h2.2, h3.2]
    have e2 : restorePad [b64Char (a / 4), b64Char (a % 4 * 16 + b / 16), b64Char (b % 16 * 4)] =
        [b64Char (a / 4), b64Char (a % 4 * 16 + b / 16), b64Char (b % 16 * 4), '='] := by
      simp [restorePad, List.replicate]
    rw [e2]
    have e3 : base64Decode
          [b64Char (a / 4), b64Char (a % 4 * 16 + b / 16), b64Char (b % 16 * 4), '='] =
        [dByte1 (b64Char (a / 4)) (b64Char (a % 4 * 16 + b / 16)),
         dByte2 (b64Char (a % 4 * 16 + b / 16)) (b64Char (b % 16 * 4))] := by
      simp [base64Decode, hne3]
    rw [e3]
    simp only [dByte1, dByte2, b64Index_b64Char _ (by omega : a / 4 < 64),
      b64Index_b64Char _ (by omega : a % 4 * 16 + b / 16 < 64),
      b64Index_b64Char _ (by omega : b % 16 * 4 < 64), List.cons.injEq, and_true]
    omega
  | a :: b :: c :: rest => fun h => by
    have ha : a < 256 := h a (by simp)
    have hb : b < 256 := h b (by simp)
    have hc : c < 256 := h c (by simp)
    have ih := base64UrlDecode_base64Url rest (fun x hx => h x (by simp [hx]))
    have h1 := base64Map_b64Char (a / 4) (by omega)
    have h2 := base64Map_b64Char (a % 4 * 16 + b / 16) (by omega)
    have h3 := base64Map_b64Char (b % 16 * 4 + c / 64) (by omega)
    have h4 := base64Map_b64Char (c % 64) (by omega)
    have hne3 : b64Char (b % 16 * 4 + c / 64) ≠ '=' := b64Char_ne_pad _ (by omega)
    have hne4 : b64Char (c % 64) ≠ '=' := b64Char_ne_pad _ (by omega)
    have e1 : base64Url (a :: b :: c :: rest) =
        urlChar (a / 4) :: urlChar (a % 4 * 16 + b / 16) ::
          urlChar (b % 16 * 4 + c / 64) :: urlChar (c % 64) :: base64Url rest := by
      simp only [base64Url, base64Encode]
      simp [List.filterMap_cons, h1.1, h2.1, h3.1, h4.1]
    rw [base64UrlDecode, e1]
    simp only [List.map_cons, h1.2, h2.2, h3.2, h4.2]
    rw [restorePad_cons4]
    have e3 : ∀ T : List Char, base64Decode (b64Char (a / 4) :: b64Char (a % 4 * 16 + b / 16) ::
          b64Char (b % 16 * 4 + c / 64) :: b64Char (c % 64) :: T) =
        dByte1 (b64Char (a / 4)) (b64Char (a % 4 * 16 + b / 16)) ::
          dByte2 (b64Char (a % 4 * 16 + b / 16)) (b64Char (b % 16 * 4 + c / 64)) ::
          dByte3 (b64Char (b % 16 * 4 + c / 64)) (b64Char (c % 64)) :: base64Decode T := by
      intro T
      simp [base64Decode, hne3, hne4]
    rw [e3]
    have etail : base64Decode (restorePad ((base64Url rest).map unmapChar)) = rest := ih
    rw [etail]
    simp only [dByte1, dByte2, dByte3,
      b64Index_b64Char _ (by omega : a / 4 < 64),
      b64Index_b64Char _ (by omega : a % 4 * 16 + b / 16 < 64),
      b64Index_b64Char _ (by omega : b % 16 * 4 + c / 64 < 64),
      b64Index_b64Char _ (by omega : c % 64 < 64), List.cons.injEq]
    refine ⟨by omega, by omega, by omega, trivial⟩

/-- `base64Url` is injective on byte lists. -/
theorem base64Url_inj {x y : List Nat} (hx : ∀ b ∈ x, b < 256) (hy : ∀ b ∈ y, b < 256)
    (he : base64Url x = base64Url y) : x = y := by
  rw [← base64UrlDecode_base64Url x hx, ← base64UrlDecode_base64Url y hy, he]

/-- Splitting at a separator byte absent from both left parts is unique. -/
theorem append_sep_inj :
    ∀ (k₁ k₂ q₁ q₂ : List Nat), 58 ∉ k₁ → 58 ∉ k₂ →
      k₁ ++ 58 :: q₁ = k₂ ++ 58 :: q₂ → k₁ = k₂ ∧ q₁ = q₂ := by
  intro k₁
  induction k₁ with
  | nil =>
    intro k₂ q₁ q₂ _ hk₂ he
    cases k₂ with
    | nil => simpa using he
    | cons b k₂ =>
      simp only [List.nil_append, List.cons_append, List.cons.injEq] at he
      exact absurd (he.1 ▸ List.mem_cons_self b k₂) (he.1 ▸ hk₂)
  | cons a k₁ ih =>
    intro k₂ q₁ q₂ hk₁ hk₂ he
    cases k₂ with
    | nil =>
      simp only [List.cons_append, List.nil_append, List.cons.injEq] at he
      exact absurd (he.1 ▸ List.mem_cons_self a k₁) (fun hm => hk₁ (he.1 ▸ hm))
    | cons b k₂ =>
      simp only [List.cons_append, List.cons.injEq] at he
      obtain ⟨rfl, he⟩ := he
      have := ih k₂ q₁ q₂ (fun hm => hk₁ (List.mem_cons_of_mem _ hm))
        (fun hm => hk₂ (List.mem_cons_of_mem _ hm)) he
      exact ⟨by rw [this.1], this.2⟩

/-- Every kind in the closed vocabulary is colon-free ASCII. -/
theorem kindVocab_bytes : ∀ k ∈ kindVocab, 58 ∉ k ∧ ∀ b ∈ k, b < 256 := by decide

/-- C1: `symbolId` is a pure function — equal `(kind, qualifiedName)`
inputs always give the identical token (the right-to-left direction) —
and over kinds drawn from the closed vocabulary it is injective:
distinct `(kind, qualifiedName)` pairs give distinct tokens (the
left-to-right direction). -/
theorem symbolId_pure_and_injective :
    ∀ k₁ q₁ k₂ q₂ : List Nat, k₁ ∈ kindVocab → k₂ ∈ kindVocab →
      (∀ b ∈ q₁, b < 256) → (∀ b ∈ q₂, b < 256) →
      (symbolId k₁ q₁ = symbolId k₂ q₂ ↔ k₁ = k₂ ∧ q₁ = q₂) := by
  intro k₁ q₁ k₂ q₂ hk₁ hk₂ hq₁ hq₂
  constructor
  · intro he
    have hv₁ := kindVocab_bytes k₁ hk₁
    have hv₂ := kindVocab_bytes k₂ hk₂
    have hts : strBytes "ts:" = [116, 115, 58] := by decide
    have hcol : strBytes ":" = [58] := by decide
    have hb : ∀ (k q : List Nat), (∀ b ∈ k, b < 256) → (∀ b ∈ q, b < 256) →
        ∀ b ∈ strBytes "ts:" ++ k ++ strBytes ":" ++ q, b < 256 := by
      intro k q hk hq x hx
      rw [hts, hcol] at hx
      simp only [List.mem_append] at hx
      rcases hx with ((hx | hx) | hx) | hx
      · simp only [List.mem_cons, List.not_mem_nil, or_false] at hx
        rcases hx with rfl | rfl | rfl <;> omega
      · exact hk x hx
      · simp only [List.mem_cons, List.not_mem_nil, or_false] at hx
        rcases hx with rfl
        omega
      · exact hq x hx
    simp only [symbolId] at he
    have hmsg := base64Url_inj (hb k₁ q₁ hv₁.2 hq₁) (hb k₂ q₂ hv₂.2 hq₂) he
    rw [hts, hcol] at hmsg
    have hmsg' : k₁ ++ 58 :: q₁ = k₂ ++ 58 :: q₂ := by
      simpa [List.append_assoc, List.singleton_append, List.cons_append,
        List.cons.injEq, true_and] using hmsg
    exact append_sep_inj _ _ _ _ hv₁.1 hv₂.1 hmsg'
  · rintro ⟨rfl, rfl⟩
    rfl

/-- Witness for C1 at concrete inputs: the `callable` kind is in the
vocabulary, the bounds hold for the ASCII bytes of `a.foo`, and the
equivalence evaluates there. -/
theorem symbolId_pure_and_injective_wit :
    symbolId (strBytes "callable") (strBytes "a.foo") =
        symbolId (strBytes "callable") (strBytes "a.foo") ↔
      strBytes "callable" = strBytes "callable" ∧ strBytes "a.foo" = strBytes "a.foo" :=
  symbolId_pure_and_injective _ _ _ _ (by decide) (by decide) (by decide) (by decide)

/-- C2: the identity token is exactly `base64Url` of the bytes of
`ts:<kind>:<qualifiedName>`, and the url-safe alphabet substitution is
lossless — decoding a token (reversing the character map, restoring the
padding, base64-decoding) returns the original byte string. -/
theorem symbolId_token_roundtrip :
    (∀ kind qualifiedName : List Nat,
        symbolId kind qualifiedName =
          base64Url (strBytes "ts:" ++ kind ++ strBytes ":" ++ qualifiedName)) ∧
    ∀ x : List Nat, (∀ b ∈ x, b < 256) → base64UrlDecode (base64Url x) = x :=
  ⟨fun _ _ => rfl, base64UrlDecode_base64Url⟩

/-- Witness for C2 at a concrete byte string (which exercises both the
two-character tail and the deleted padding). -/
theorem symbolId_token_roundtrip_wit :
    base64UrlDecode (base64Url [116, 0, 255, 47, 62]) = [116, 0, 255, 47, 62] :=
  symbolId_token_roundtrip.2 _ (by decide)

/-! ### The fact-record data model (collect.ts lines 18-65) -/

/-- Source span; the extractor fills it from the non-whitespace start
and end positions of a node. -/
structure Span where
  startLine : Nat
  startCol : Nat
  endLine : Nat
  endCol : Nat
deriving DecidableEq, Repr

/-- The closed `kind` vocabulary of `UnitRecord` (the source's string
union); `var` stands for the source's `"variable"`, which is a Lean
keyword. -/
inductive UnitKind where
  | callable
  | classifier
  | var
  | parameter
  | type
deriving DecidableEq, Repr

/-- The string the source writes for each unit kind. -/
def UnitKind.str : UnitKind → String
  | .callable => "callable"
  | .classifier => "classifier"
  | .var => "variable"
  | .parameter => "parameter"
  | .type => "type"

/-- A declaration-like fact record.  The source's optional booleans
`isExportedDefault` and `isAsync` are always assigned by `collectUnits`,
so they are plain `Bool` here. -/
structure UnitRecord where
  kind : UnitKind
  name : String
  qualifiedName : String
  symbolId : String
  span : Span
  astPath : String
  isExportedDefault : Bool
  isAsync : Bool
deriving DecidableEq, Repr

/-- The `resolvedKind` vocabulary of `ImportRecord`. -/
inductive ResolvedKind where
  | package
  | file
  | unknown
deriving DecidableEq, Repr

/-- An import fact; `fromSpec` is the source's `from` field (a Lean
keyword). -/
structure ImportRecord where
  fromSpec : String
  resolvedKind : ResolvedKind
  resolved : Option String
deriving DecidableEq, Repr

/-- An export fact. -/
structure ExportRecord where
  name : String
  unitSymbolId : Option String
deriving DecidableEq, Repr

/-- The `relation` vocabulary of `OccurrenceRecord`; the source declares
four members though only `calls` is ever produced. -/
inductive Relation where
  | calls
  | references
  | reads
  | writes
deriving DecidableEq, Repr

/-- A call-site fact. -/
structure OccurrenceRecord where
  relation : Relation
  subjectSymbolId : String
  objectSymbolId : Option String
  objectQName : Option String
  span : Span
deriving DecidableEq, Repr

/-- One record per file; `extendsRel` and `implementsRel` are the
source's `extends` and `implements` fields (Lean keywords), each entry a
`(subject, target)` pair. -/
structure FileFacts where
  filePath : String
  sha256 : String
  units : List UnitRecord
  imports : List ImportRecord
  exports : List ExportRecord
  occurrences : List OccurrenceRecord
  extendsRel : List (String × String)
  implementsRel : List (String × String)
  hasUseClientDirective : Bool
deriving DecidableEq, Repr

/-! ### The syntax-tree model

The parsed file is a rose tree.  Each node carries exactly the fields
the extractor reads from `ts-morph`: its syntax kind, the result of
`getName()` respectively `getNameNode()?.getText()`, its full source
text (`getText()`), the unquoted literal value of a string literal
(`getLiteralText()`), the name of the symbol the binder attached to the
node (`getSymbol()?.getName()`), whether a `default` modifier is
present, `isAsync()`, and its span. -/

/-- Syntax kinds distinguished by the extractor; every kind it does not
inspect collapses into `otherKind`. -/
inductive NodeKind where
  | functionDeclaration
  | methodDeclaration
  | functionExpression
  | arrowFunction
  | constructorDecl
  | getAccessor
  | setAccessor
  | classDeclaration
  | interfaceDeclaration
  | enumDeclaration
  | variableDeclaration
  | parameter
  | exportAssignment
  | callExpression
  | stringLiteral
  | expressionStatement
  | identifier
  | sourceFile
  | otherKind
deriving DecidableEq, Repr

/-- `getKindName()`, used as the fallback unit name. -/
def NodeKind.kindName : NodeKind → String
  | .functionDeclaration => "FunctionDeclaration"
  | .methodDeclaration => "MethodDeclaration"
  | .functionExpression => "FunctionExpression"
  | .arrowFunction => "ArrowFunction"
  | .constructorDecl => "Constructor"
  | .getAccessor => "GetAccessor"
  | .setAccessor => "SetAccessor"
  | .classDeclaration => "ClassDeclaration"
  | .interfaceDeclaration => "InterfaceDeclaration"
  | .enumDeclaration => "EnumDeclaration"
  | .variableDeclaration => "VariableDeclaration"
  | .parameter => "Parameter"
  | .exportAssignment => "ExportAssignment"
  | .callExpression => "CallExpression"
  | .stringLiteral => "StringLiteral"
  | .expressionStatement => "ExpressionStatement"
  | .identifier => "Identifier"
  | .sourceFile => "SourceFile"
  | .otherKind => "Unknown"

/-- Per-node data read by the extractor. `name` models `getName()`;
`nameNodeText` models the text of the name node (total on real variable
declarations, optional on methods and accessors, matching the source's
checks); `lit` is `getLiteralText()` of a string literal. -/
structure NodeData where
  name : Option String := none
  nameNodeText : Option String := none
  text : String := ""
  lit : String := ""
  symbolName : Option String := none
  hasDefaultModifier : Bool := false
  isAsync : Bool := false
  span : Span := ⟨0, 0, 0, 0⟩
deriving DecidableEq, Repr

/-- A node of the parsed tree. -/
inductive TsNode where
  | mk (kind : NodeKind) (data : NodeData) (children : List TsNode)

/-- Syntax kind of a node. -/
def TsNode.kind : TsNode → NodeKind
  | .mk k _ _ => k

/-- Data of a node. -/
def TsNode.data : TsNode → NodeData
  | .mk _ d _ => d

/-- Children of a node, in source order. -/
def TsNode.children : TsNode → List TsNode
  | .mk _ _ c => c

mutual

/-- Structural node equality, the model of reference identity of the
wrapped `ts-morph` nodes (the wrapper caches nodes, so two structurally
distinct occurrences are distinct references). -/
def nodeBeq : TsNode → TsNode → Bool
  | .mk k₁ d₁ c₁, .mk k₂ d₂ c₂ => k₁ == k₂ && d₁ == d₂ && nodeListBeq c₁ c₂

/-- Pointwise `nodeBeq` on child lists. -/
def nodeListBeq : List TsNode → List TsNode → Bool
  | [], [] => true
  | a :: as, b :: bs => nodeBeq a b && nodeListBeq as bs
  | _, _ => false

end

mutual

/-- A node together with its descendants, pre-order depth-first. -/
def subtreeList : TsNode → List TsNode
  | .mk k d cs => .mk k d cs :: subtreeAll cs

/-- Pre-order traversal of a forest. -/
def subtreeAll : List TsNode → List TsNode
  | [] => []
  | c :: cs => subtreeList c ++ subtreeAll cs

end

/-- `forEachDescendant` visit order: every proper descendant of a node,
pre-order depth-first. -/
def TsNode.descendants (n : TsNode) : List TsNode := subtreeAll n.children

/-- `getExpression()` of an expression statement or call expression: its
expression child, which the model stores as the first child. -/
def TsNode.getExpression (n : TsNode) : TsNode :=
  n.children.headD (.mk .otherKind {} [])

/-! ### Name and kind inference (collect.ts lines 132-210) -/

/-- `inferNodeName` of collect.ts: the kind-specific best-effort local
name, with the synthetic names `"default"`, `"arrow"` and
`"anonymous"`. -/
def inferNodeName (n : TsNode) : Option String :=
  match n.kind with
  | .functionDeclaration =>
    match n.data.name with
    | some nm => some nm
    | none => if n.data.hasDefaultModifier then some "default" else none
  | .variableDeclaration => n.data.nameNodeText
  | .classDeclaration | .interfaceDeclaration | .enumDeclaration => n.data.name
  | .methodDeclaration | .getAccessor | .setAccessor => n.data.nameNodeText
  | .arrowFunction => some "arrow"
  | .functionExpression => some "anonymous"
  | _ => none

/-- `inferUnitKind` of collect.ts: the static node-kind to unit-kind
table. -/
def inferUnitKind (n : TsNode) : UnitKind :=
  match n.kind with
  | .functionDeclaration | .methodDeclaration | .functionExpression | .arrowFunction
  | .constructorDecl | .getAccessor | .setAccessor => .callable
  | .classDeclaration | .interfaceDeclaration | .enumDeclaration => .classifier
  | .variableDeclaration => .var
  | .parameter => .parameter
  | _ => .type

/-- `buildQualifiedName` of collect.ts, parameterised by the module name
the source derives from the repo-relative file path.  The base name is
the binder symbol's name when one exists, else the inferred node name;
a JavaScript-falsy (empty) base name yields `undefined` exactly as the
source's `if (!baseName)` does. -/
def buildQualifiedName (moduleName : String) (n : TsNode) : Option String :=
  let baseName := match n.data.symbolName with
    | some b => some b
    | none => inferNodeName n
  match baseName with
  | some b => if b = "" then none else some (moduleName ++ "." ++ b)
  | none => none

/-! ### Occurrence extraction (collect.ts lines 244-277) -/

/-- The resolution facts the extractor reads about a resolved callee
symbol: `getFullyQualifiedName`, `getDeclarations()`, and the module
name of the first declaration's source file. -/
structure SymbolRef where
  fqName : String
  decls : List TsNode
  declModule : String

/-- The ambient type checker, as the one operation the extractor uses:
`expression.getSymbol() ?? checker.getSymbolAtLocation(expression)`,
merged into a single resolution map. -/
structure Checker where
  symbolOf : TsNode → Option SymbolRef

/-- The textual clean-up applied to the best-effort qualified name:
`.replace(/["']/g, "").replace(/\//g, ".")` — delete every double or
single quote, then turn every slash into a dot. -/
def cleanQName (s : String) : String :=
  ⟨(s.data.filter fun c => ¬(c = Char.ofNat 34 ∨ c = Char.ofNat 39)).map
    fun c => if c = '/' then '.' else c⟩

/-- The record built for one call-expression node. -/
def occurrenceFor (checker : Checker) (subjectId : String) (n : TsNode) : OccurrenceRecord :=
  let expression := n.getExpression
  let sym := checker.symbolOf expression
  let qn := match sym with
    | some s => s.fqName
    | none => expression.data.text
  let objectSymbolId : Option String :=
    match sym with
    | none => none
    | some s =>
      match s.decls.head? with
      | none => none
      | some d =>
        match buildQualifiedName s.declModule d with
        | none => none
        | some objectQn => some (symbolIdS (inferUnitKind d).str objectQn)
  { relation := .calls
    subjectSymbolId := subjectId
    objectSymbolId := objectSymbolId
    objectQName := some (cleanQName qn)
    span := n.data.span }

/-- `collectCallOccurrences` of collect.ts: one record per
call-expression descendant of the container, in traversal order. -/
def collectCallOccurrences (container : TsNode) (subjectId : String)
    (checker : Checker) : List OccurrenceRecord :=
  container.descendants.filterMap fun n =>
    if n.kind = .callExpression then some (occurrenceFor checker subjectId n) else none

/-! ### Unit extraction (collect.ts lines 279-321) -/

/-- The declaration-kind test of `collectUnits` (the negated early
return at lines 283-293): note `variableDeclaration` is absent. -/
def isUnitDeclKind (k : NodeKind) : Bool :=
  match k with
  | .functionDeclaration | .functionExpression | .arrowFunction | .methodDeclaration
  | .classDeclaration | .interfaceDeclaration | .enumDeclaration => true
  | _ => false

/-- The function-like kinds whose subtree is scanned for calls (line
316). -/
def isCallContainerKind (k : NodeKind) : Bool :=
  match k with
  | .functionDeclaration | .methodDeclaration | .arrowFunction | .functionExpression => true
  | _ => false

/-- The `UnitRecord` emitted for one node, when any: `none` when the
node is not a declaration kind or no qualified name is derivable.
`defaultDecls` models `getDefaultExportSymbol()?.getDeclarations()`;
`astP` models the source's `astPath` helper, whose value no verified
property depends on. -/
def unitFor (moduleName : String) (defaultDecls : List TsNode)
    (astP : TsNode → String) (n : TsNode) : Option UnitRecord :=
  if isUnitDeclKind n.kind then
    match buildQualifiedName moduleName n with
    | none => none
    | some qn =>
      let kind := inferUnitKind n
      some { kind := kind
             name := (inferNodeName n).getD n.kind.kindName
             qualifiedName := qn
             symbolId := symbolIdS kind.str qn
             span := n.data.span
             astPath := astP n
             isExportedDefault := n.data.hasDefaultModifier || defaultDecls.any (nodeBeq n)
             isAsync := n.data.isAsync }
  else none

/-- `collectUnits` of collect.ts: traverse all descendants of the file;
emit a unit per declaration node with a derivable qualified name; for
function-like units additionally collect the call occurrences of the
unit's subtree, with the unit's token as subject. -/
def collectUnits (moduleName : String) (checker : Checker) (defaultDecls : List TsNode)
    (astP : TsNode → String) (file : TsNode) : List UnitRecord × List OccurrenceRecord :=
  (file.descendants.filterMap (unitFor moduleName defaultDecls astP),
   file.descendants.flatMap fun n =>
     match unitFor moduleName defaultDecls astP n with
     | none => []
     | some u =>
       if isCallContainerKind n.kind then collectCallOccurrences n u.symbolId checker
       else [])

/-! ### Directive detection (collect.ts lines 323-338) -/

/-- The statement scan of `hasUseClientDirective`: walk leading
expression statements whose expression is a string literal; return true
on the literal `use client`; stop at the first statement of any other
shape. -/
def useClientScan : List TsNode → Bool
  | [] => false
  | stmt :: rest =>
    if stmt.kind = .expressionStatement then
      let expression := stmt.getExpression
      if expression.kind = .stringLiteral then
        if expression.data.lit = "use client" then true else useClientScan rest
      else false
    else false

/-- `hasUseClientDirective` of collect.ts over the file's statement
list (the children of the source-file node). -/
def hasUseClientDirective (file : TsNode) : Bool := useClientScan file.children

/-! ### Export extraction (collect.ts lines 114-130 and 225-242) -/

/-- The facts the extractor reads about one exported symbol:
`getName()` and `getDeclarations()`. -/
structure ExportSym where
  name : String
  decls : List TsNode

/-- `exportDefaultSymbolId` of collect.ts, parameterised by the
declaration list of the file's default-export symbol (empty both when
there is no default export and when the symbol has no declaration —
the source returns `undefined` in either case). -/
def exportDefaultSymbolId (moduleName : String) (defaultDecls : List TsNode) : Option String :=
  match defaultDecls.head? with
  | none => none
  | some decl =>
    match buildQualifiedName moduleName decl with
    | none => none
    | some qn => some (symbolIdS (inferUnitKind decl).str qn)

/-- `collectExportRecords` of collect.ts: one record per exported symbol
with at least one declaration (the first declaration decides kind and
qualified name), then a `default` record when `exportDefaultSymbolId`
yields a token. -/
def collectExportRecords (moduleName : String) (exportSyms : List ExportSym)
    (defaultDecls : List TsNode) : List ExportRecord :=
  (exportSyms.filterMap fun sym =>
    match sym.decls.head? with
    | none => none
    | some decl =>
      some { name := sym.name
             unitSymbolId :=
               (buildQualifiedName moduleName decl).map
                 fun qn => symbolIdS (inferUnitKind decl).str qn })
  ++ (match exportDefaultSymbolId moduleName defaultDecls with
      | none => []
      | some defaultId => [{ name := "default", unitSymbolId := some defaultId }])

/-! ### Import extraction (collect.ts lines 212-223) -/

/-- The facts the extractor reads about one import declaration:
`getModuleSpecifierValue()` and `getModuleSpecifierSourceFile()` — the
latter is the source file of the project the specifier resolves to,
when it resolves, carried here as that file's path. -/
structure ImportDecl where
  moduleSpecifierValue : String
  moduleSpecifierSourceFile : Option String
deriving DecidableEq, Repr

/-- The record built for one import declaration; `relOf` models
`path.relative(baseRoot, ...)` with separators normalised. -/
def importRecordFor (relOf : String → String) (d : ImportDecl) : ImportRecord :=
  match d.moduleSpecifierSourceFile with
  | some p =>
    { fromSpec := d.moduleSpecifierValue, resolvedKind := .file, resolved := some (relOf p) }
  | none =>
    { fromSpec := d.moduleSpecifierValue
      resolvedKind := if d.moduleSpecifierValue.startsWith "." then .unknown else .package
      resolved := none }

/-- `collectImportRecords` of collect.ts. -/
def collectImportRecords (relOf : String → String) (decls : List ImportDecl) :
    List ImportRecord :=
  decls.map (importRecordFor relOf)

/-! ### File-fact assembly (collect.ts lines 340-357) -/

/-- `collectFacts` of collect.ts.  `filePath` and `sha256` model the
absolute source path and the content hash the source computes from the
file bytes; both are inputs of the embedding. -/
def collectFacts (filePath sha256 moduleName : String) (checker : Checker)
    (defaultDecls : List TsNode) (exportSyms : List ExportSym)
    (importDecls : List ImportDecl) (relOf : String → String)
    (astP : TsNode → String) (file : TsNode) : FileFacts :=
  let uo := collectUnits moduleName checker defaultDecls astP file
  { filePath := filePath
    sha256 := sha256
    units := uo.1
    imports := collectImportRecords relOf importDecls
    exports := collectExportRecords moduleName exportSyms defaultDecls
    occurrences := uo.2
    extendsRel := []
    implementsRel := []
    hasUseClientDirective := hasUseClientDirective file }

/-! ### The driver (index.ts lines 78-111) -/

/-- The file-list phase of `main`: a present override is parsed as JSON
and resolved against the repository root; a malformed override aborts
the run with the failing exit (`process.exit(1)` after
`Invalid ONTOCODE_FILE_LIST`); an absent override uses the discovered
list. -/
def mainFileList (parseJson : String → Option (List String)) (resolve : String → String)
    (envList : Option String) (discovered : List String) : Except String (List String) :=
  match envList with
  | some s =>
    match parseJson s with
    | some rels => .ok (rels.map resolve)
    | none => .error "Invalid ONTOCODE_FILE_LIST"
  | none => .ok discovered

/-- The emission loop of `main`: paths already seen are skipped, a path
with no loadable source is skipped (but marked seen), and otherwise one
`FileFacts` record is written.  `factsFor` is `collectFacts` plus the
`filePath` rewrite of line 109. -/
def emitLoop (getSource : String → Option TsNode) (factsFor : String → TsNode → FileFacts) :
    List String → List String → List FileFacts
  | [], _ => []
  | f :: rest, seen =>
    if f ∈ seen then emitLoop getSource factsFor rest seen
    else
      match getSource f with
      | none => emitLoop getSource factsFor rest (f :: seen)
      | some src => factsFor f src :: emitLoop getSource factsFor rest (f :: seen)

/-- `main` of index.ts on its inputs: the file-list phase followed by
the emission loop; an abort in the first phase emits nothing. -/
def runMain (parseJson : String → Option (List String)) (resolve : String → String)
    (getSource : String → Option TsNode) (factsFor : String → TsNode → FileFacts)
    (envList : Option String) (discovered : List String) : Except String (List FileFacts) :=
  (mainFileList parseJson resolve envList discovered).map
    fun files => emitLoop getSource factsFor files []

/-! ### Shared concrete fixtures -/

/-- A checker that resolves nothing. -/
def noResolve : Checker := ⟨fun _ => none⟩

/-- A trivial ast-path assignment. -/
def noPath : TsNode → String := fun _ => ""

/-- A source file with the given statements. -/
def fileOf (stmts : List TsNode) : TsNode := .mk .sourceFile {} stmts

/-- An expression statement whose expression is the string literal with
literal text `s`. -/
def directiveStmt (s : String) : TsNode :=
  .mk .expressionStatement {} [.mk .stringLiteral { lit := s } []]

/-- An empty fact record, for concrete driver runs. -/
def emptyFacts : FileFacts := ⟨"", "", [], [], [], [], [], [], false⟩

/-! ### Generic list lemma -/

/-- A `filterMap` guarded by a decidable test is the `map` over the
`filter`. -/
theorem filterMap_ite {α β : Type} (p : α → Prop) [DecidablePred p] (g : α → β)
    (l : List α) :
    (l.filterMap fun a => if p a then some (g a) else none) =
      (l.filter fun a => decide (p a)).map g := by
  induction l with
  | nil => rfl
  | cons a l ih =>
    by_cases h : p a <;> simp [List.filterMap_cons, List.filter_cons, h, ih]

/-! ### Claim theorems C3 to C10 -/

/-- C3: each import declaration yields one record; its `resolvedKind` is
`file` exactly when the specifier resolves to a source file of the
project, in which case the repo-relative resolved path is stored; an
unresolved relative specifier is `unknown`; an unresolved non-relative
specifier is `package`. -/
theorem importRecord_classification :
    ∀ (relOf : String → String) (decls : List ImportDecl),
      collectImportRecords relOf decls = decls.map (importRecordFor relOf) ∧
      ∀ d : ImportDecl,
        ((importRecordFor relOf d).resolvedKind = .file ↔
          d.moduleSpecifierSourceFile.isSome) ∧
        (∀ p, d.moduleSpecifierSourceFile = some p →
          (importRecordFor relOf d).resolved = some (relOf p)) ∧
        (d.moduleSpecifierSourceFile = none →
          (importRecordFor relOf d).resolvedKind =
            if d.moduleSpecifierValue.startsWith "." then .unknown else .package) := by
  intro relOf decls
  refine ⟨rfl, fun d => ?_⟩
  cases hd : d.moduleSpecifierSourceFile with
  | none =>
    refine ⟨?_, ?_, ?_⟩
    · simp only [importRecordFor, hd]
      constructor
      · intro hk
        by_cases hs : d.moduleSpecifierValue.startsWith "." <;> simp [hs] at hk
      · intro hk
        simp at hk
    · intro p hp
      simp [hd] at hp
    · intro _
      simp [importRecordFor, hd]
  | some p =>
    refine ⟨?_, ?_, ?_⟩
    · simp [importRecordFor, hd]
    · intro q hq
      have hqp : p = q := Option.some.inj hq
      subst hqp
      simp [importRecordFor, hd]
    · intro hn
      exact Option.noConfusion hn

/-- Witness for C3 at concrete import declarations: a resolved file, an
unresolved relative specifier, an unresolved bare specifier. -/
theorem importRecord_classification_wit :
    (importRecordFor id ⟨"./util", some "/repo/src/util.ts"⟩).resolved =
        some "/repo/src/util.ts" ∧
    (importRecordFor id ⟨"./missing", none⟩).resolvedKind =
        (if ("./missing").startsWith "." then ResolvedKind.unknown else .package) ∧
    (importRecordFor id ⟨"react", none⟩).resolvedKind =
        (if ("react").startsWith "." then ResolvedKind.unknown else .package) :=
  ⟨((importRecord_classification id []).2 ⟨"./util", some "/repo/src/util.ts"⟩).2.1 _ rfl,
   ((importRecord_classification id []).2 ⟨"./missing", none⟩).2.2 rfl,
   ((importRecord_classification id []).2 ⟨"react", none⟩).2.2 rfl⟩

/-- C4 counterexample: in a file whose first statement is the directive
`"use strict"` and whose second statement is the directive
`"use client"`, the string `use client` appears only as the second
statement, yet `hasUseClientDirective` is `true` — the source scans the
whole leading directive prologue, not just the first statement. -/
theorem useClient_second_statement_cex :
    (directiveStmt "use strict").getExpression.data.lit ≠ "use client" ∧
    hasUseClientDirective (fileOf [directiveStmt "use strict", directiveStmt "use client"]) =
      true := by
  exact ⟨by decide, rfl⟩

/-- C4 amended: `hasUseClientDirective` is `true` when the first
statement is the `"use client"` directive; it is `false` whenever the
first statement is not a string-literal expression statement; and when
the first statement is a string-literal directive other than
`"use client"`, the scan continues, so a `"use client"` second statement
still yields `true`. -/
theorem useClient_directive_prologue :
    (∀ rest : List TsNode,
      hasUseClientDirective (fileOf (directiveStmt "use client" :: rest)) = true) ∧
    (∀ (s : TsNode) (rest : List TsNode),
      ¬(s.kind = .expressionStatement ∧ s.getExpression.kind = .stringLiteral) →
      hasUseClientDirective (fileOf (s :: rest)) = false) ∧
    (∀ (t : String) (rest : List TsNode), t ≠ "use client" →
      hasUseClientDirective
        (fileOf (directiveStmt t :: directiveStmt "use client" :: rest)) = true) := by
  refine ⟨fun rest => rfl, ?_, ?_⟩
  · intro s rest hs
    simp only [hasUseClientDirective, fileOf, TsNode.children, useClientScan]
    by_cases h1 : s.kind = .expressionStatement
    · by_cases h2 : s.getExpression.kind = .stringLiteral
      · exact absurd ⟨h1, h2⟩ hs
      · simp [h1, h2]
    · simp [h1]
  · intro t rest ht
    simp [hasUseClientDirective, fileOf, TsNode.children, useClientScan, directiveStmt,
      TsNode.getExpression, TsNode.kind, TsNode.data, ht]

/-- Witness for C4 amended at concrete files: a non-directive first
statement hides a second-statement `"use client"`, while a
`"use strict"` first directive does not. -/
theorem useClient_directive_prologue_wit :
    hasUseClientDirective
        (fileOf [TsNode.mk .otherKind {} [], directiveStmt "use client"]) = false ∧
    hasUseClientDirective
        (fileOf [directiveStmt "use strict", directiveStmt "use client"]) = true :=
  ⟨useClient_directive_prologue.2.1 _ _ (by intro h; exact absurd h.1 (by decide)),
   useClient_directive_prologue.2.2 "use strict" [] (by decide)⟩

/-! ### C5: default export of an anonymous arrow function

The model file is `export default () => 0` in module `app.page`. Per
the TypeScript binder, the file's `default` export symbol's declaration
is the export-assignment node itself, not the arrow function beneath
it; the arrow node carries no symbol of its own and no `default`
modifier (arrow functions cannot carry one syntactically). -/

/-- The anonymous arrow function of `export default () => 0`. -/
def arrowDefaultNode : TsNode := .mk .arrowFunction { text := "() => 0" } []

/-- The export assignment binding the arrow; the binder names its
symbol `default`. -/
def exportAssignNode : TsNode :=
  .mk .exportAssignment { symbolName := some "default", text := "export default () => 0" }
    [arrowDefaultNode]

/-- The file `export default () => 0`. -/
def arrowDefaultFile : TsNode := .mk .sourceFile {} [exportAssignNode]

/-- C5: evaluating the extractor on `export default () => 0` shows the
divergence from the claim: the arrow unit is emitted with
`name = "arrow"` but `isExportedDefault = false` (the default-export
declaration list holds the export assignment, which is not the arrow
node, and an arrow carries no `default` modifier), and the `default`
export record carries `symbolId("type", "app.page.default")`, which
differs from the arrow unit's own token. -/
theorem defaultArrow_export_divergence :
    ∀ astP : TsNode → String,
      ((collectUnits "app.page" noResolve [exportAssignNode] astP arrowDefaultFile).1.map
          fun u => (u.name, u.kind, u.qualifiedName, u.isExportedDefault, u.symbolId)) =
        [("arrow", .callable, "app.page.arrow", false, symbolIdS "callable" "app.page.arrow")] ∧
      collectExportRecords "app.page" [] [exportAssignNode] =
        [{ name := "default", unitSymbolId := some (symbolIdS "type" "app.page.default") }] ∧
      symbolIdS "type" "app.page.default" ≠ symbolIdS "callable" "app.page.arrow" := by
  intro astP
  exact ⟨rfl, rfl, by decide⟩

/-! ### C6: variable declarations and the unit filter -/

/-- A named variable declaration `const x = ...` (name node `x`, binder
symbol `x`). -/
def varDeclNode : TsNode :=
  .mk .variableDeclaration { nameNodeText := some "x", symbolName := some "x" } []

/-- A file whose only declaration-like node is the variable. -/
def varFile : TsNode := .mk .sourceFile {} [varDeclNode]

/-- C6 counterexample: the file's descendants consist of a named
variable declaration with a derivable qualified name and kind
`variable`, yet `collectUnits` emits no unit at all — the declaration
filter of collect.ts lines 283-293 omits `VariableDeclaration`. -/
theorem variable_unit_cex :
    TsNode.descendants varFile = [varDeclNode] ∧
    buildQualifiedName "m" varDeclNode = some "m.x" ∧
    inferUnitKind varDeclNode = .var ∧
    (collectUnits "m" noResolve [] noPath varFile).1 = [] := by
  exact ⟨rfl, rfl, rfl, rfl⟩

/-- C6 amended: the Unit Extractor emits exactly one `UnitRecord` per
descendant that is a function declaration, function expression, arrow
function, method, class, interface or enum and has a derivable
qualified name; nodes outside that set — in particular variable
declarations — never yield a unit. -/
theorem collectUnits_decl_kinds :
    ∀ (moduleName : String) (checker : Checker) (defaultDecls : List TsNode)
      (astP : TsNode → String) (file : TsNode),
      (collectUnits moduleName checker defaultDecls astP file).1 =
        file.descendants.filterMap (unitFor moduleName defaultDecls astP) ∧
      (∀ n : TsNode, isUnitDeclKind n.kind = false →
        unitFor moduleName defaultDecls astP n = none) ∧
      (∀ n : TsNode, n.kind = .variableDeclaration →
        unitFor moduleName defaultDecls astP n = none) ∧
      (∀ n : TsNode, isUnitDeclKind n.kind = true →
        ∀ qn, buildQualifiedName moduleName n = some qn →
          unitFor moduleName defaultDecls astP n =
            some { kind := inferUnitKind n
                   name := (inferNodeName n).getD n.kind.kindName
                   qualifiedName := qn
                   symbolId := symbolIdS (inferUnitKind n).str qn
                   span := n.data.span
                   astPath := astP n
                   isExportedDefault :=
                     n.data.hasDefaultModifier || defaultDecls.any (nodeBeq n)
                   isAsync := n.data.isAsync }) := by
  intro moduleName checker defaultDecls astP file
  refine ⟨rfl, ?_, ?_, ?_⟩
  · intro n hn
    simp [unitFor, hn]
  · intro n hn
    have hk : isUnitDeclKind n.kind = false := by rw [hn]; rfl
    simp [unitFor, hk]
  · intro n hn qn hqn
    simp [unitFor, hn, hqn]

/-- Witness for C6 amended at concrete nodes: a variable declaration
yields no unit, a named function declaration yields its unit. -/
theorem collectUnits_decl_kinds_wit :
    unitFor "m" [] noPath varDeclNode = none ∧
    unitFor "m" [] noPath (.mk .functionDeclaration { name := some "foo" } []) =
      some { kind := .callable
             name := "foo"
             qualifiedName := "m.foo"
             symbolId := symbolIdS "callable" "m.foo"
             span := ⟨0, 0, 0, 0⟩
             astPath := ""
             isExportedDefault := false
             isAsync := false } :=
  ⟨(collectUnits_decl_kinds "m" noResolve [] noPath varFile).2.2.1 varDeclNode rfl,
   (collectUnits_decl_kinds "m" noResolve [] noPath varFile).2.2.2
     (.mk .functionDeclaration { name := some "foo" } []) rfl "m.foo" rfl⟩

/-! ### C7: unresolved call occurrences -/

/-- C7 amended: within one callable container, extraction yields exactly
one `OccurrenceRecord` per call-expression descendant (in traversal
order); every record has `relation = calls`; and when the callee does
not resolve, `objectSymbolId` is absent and `objectQName` is the
callee's source text with quote characters removed and slashes turned
into dots — non-empty whenever that text contains any non-quote
character. -/
theorem unresolved_call_occurrence :
    ∀ (container : TsNode) (subjectId : String) (checker : Checker),
      collectCallOccurrences container subjectId checker =
        (container.descendants.filter fun n => decide (n.kind = .callExpression)).map
          (occurrenceFor checker subjectId) ∧
      ∀ n : TsNode,
        (occurrenceFor checker subjectId n).relation = .calls ∧
        (checker.symbolOf n.getExpression = none →
          (occurrenceFor checker subjectId n).objectSymbolId = none ∧
          (occurrenceFor checker subjectId n).objectQName =
            some (cleanQName n.getExpression.data.text) ∧
          ((∃ c ∈ n.getExpression.data.text.data,
              ¬(c = Char.ofNat 34 ∨ c = Char.ofNat 39)) →
            (occurrenceFor checker subjectId n).objectQName ≠ some "")) := by
  intro container subjectId checker
  refine ⟨filterMap_ite _ _ _, fun n => ⟨rfl, fun hsym => ?_⟩⟩
  refine ⟨by simp [occurrenceFor, hsym], by simp [occurrenceFor, hsym], ?_⟩
  rintro ⟨c, hc, hcq⟩ habs
  rw [show (occurrenceFor checker subjectId n).objectQName =
      some (cleanQName n.getExpression.data.text) from by simp [occurrenceFor, hsym]] at habs
  have heq : cleanQName n.getExpression.data.text = "" := Option.some_inj.mp habs
  have hdata : ((n.getExpression.data.text.data.filter fun c =>
      ¬(c = Char.ofNat 34 ∨ c = Char.ofNat 39)).map fun c =>
        if c = '/' then '.' else c) = [] := congrArg String.data heq
  rw [List.map_eq_nil_iff, List.filter_eq_nil_iff] at hdata
  exact hdata c hc (by simpa using hcq)

/-- A syntactically valid call whose callee is the empty string literal,
`""()`: the callee's source text is the two quote characters. -/
def emptyCalleeCall : TsNode :=
  .mk .callExpression { text := "\"\"()" } [.mk .stringLiteral { text := "\"\"" } []]

/-- A function whose body contains the call `""()`. -/
def emptyCalleeContainer : TsNode :=
  .mk .functionDeclaration { name := some "f" } [emptyCalleeCall]

/-- C7 counterexample: the callee `""` — a string literal with no
binder symbol — yields exactly one occurrence record with
`objectSymbolId` absent and `relation = calls`, but its `objectQName`
is the empty string: stripping the quote characters leaves nothing, so
the claimed non-emptiness fails. -/
theorem unresolved_call_occurrence_cex :
    (collectCallOccurrences emptyCalleeContainer "S" noResolve).map
        (fun r => (r.relation, r.objectSymbolId, r.objectQName)) =
      [(Relation.calls, none, some "")] := by
  rfl

/-- Witness for C7 amended at the concrete unresolved call `fmt/log()`:
one record, `relation = calls`, no `objectSymbolId`, and the cleaned
non-empty `objectQName`. -/
theorem unresolved_call_occurrence_wit :
    (occurrenceFor noResolve "S" (.mk .callExpression {}
        [.mk .identifier { text := "fmt/log" } []])).relation = .calls ∧
    (occurrenceFor noResolve "S" (.mk .callExpression {}
        [.mk .identifier { text := "fmt/log" } []])).objectSymbolId = none ∧
    (occurrenceFor noResolve "S" (.mk .callExpression {}
        [.mk .identifier { text := "fmt/log" } []])).objectQName ≠ some "" := by
  have h := (unresolved_call_occurrence (fileOf []) "S" noResolve).2
    (.mk .callExpression {} [.mk .identifier { text := "fmt/log" } []])
  have h2 := h.2 rfl
  exact ⟨h.1, h2.1, h2.2.2 ⟨'f', by decide, by decide⟩⟩

/-! ### C8 and C9: the driver -/

/-- C8: a present but malformed file-list override aborts the whole run
with the failing exit before any extraction; no fact record is
emitted. -/
theorem malformed_file_list_aborts :
    ∀ (parseJson : String → Option (List String)) (resolve : String → String)
      (getSource : String → Option TsNode) (factsFor : String → TsNode → FileFacts)
      (s : String) (discovered : List String),
      parseJson s = none →
      runMain parseJson resolve getSource factsFor (some s) discovered =
        .error "Invalid ONTOCODE_FILE_LIST" := by
  intro parseJson resolve getSource factsFor s discovered hp
  simp [runMain, mainFileList, hp, Except.map]

/-- Witness for C8 at a concrete run whose override does not parse. -/
theorem malformed_file_list_aborts_wit :
    runMain (fun _ => none) id (fun _ => some (fileOf []))
        (fun _ _ => emptyFacts) (some "not json") ["/repo/a.ts"] =
      .error "Invalid ONTOCODE_FILE_LIST" :=
  malformed_file_list_aborts _ _ _ _ _ _ rfl

/-- Nodup invariant of the emission loop: emitted paths are distinct and
avoid everything already seen. -/
theorem emitLoop_nodup_aux (getSource : String → Option TsNode)
    (factsFor : String → TsNode → FileFacts) (relOf : String → String)
    (hff : ∀ f src, (factsFor f src).filePath = relOf f)
    (hinj : ∀ a b : String, relOf a = relOf b → a = b) :
    ∀ files seen : List String,
      ((emitLoop getSource factsFor files seen).map FileFacts.filePath).Nodup ∧
      ∀ p ∈ (emitLoop getSource factsFor files seen).map FileFacts.filePath,
        ∀ g ∈ seen, p ≠ relOf g := by
  intro files
  induction files with
  | nil =>
    intro seen
    simp [emitLoop]
  | cons f rest ih =>
    intro seen
    by_cases hf : f ∈ seen
    · simpa [emitLoop, hf] using ih seen
    · cases hgs : getSource f with
      | none =>
        have h := ih (f :: seen)
        rw [show emitLoop getSource factsFor (f :: rest) seen =
            emitLoop getSource factsFor rest (f :: seen) from by simp [emitLoop, hf, hgs]]
        exact ⟨h.1, fun p hp g hg => h.2 p hp g (List.mem_cons_of_mem f hg)⟩
      | some src =>
        have h := ih (f :: seen)
        rw [show emitLoop getSource factsFor (f :: rest) seen =
            factsFor f src :: emitLoop getSource factsFor rest (f :: seen) from by
          simp [emitLoop, hf, hgs]]
        simp only [List.map_cons, List.nodup_cons, List.mem_cons, hff f src]
        refine ⟨⟨fun hmem => ?_, h.1⟩, ?_⟩
        · exact h.2 _ hmem f (List.mem_cons_self f seen) rfl
        · intro p hp g hg
          rcases hp with rfl | hp
          · intro he
            exact hf (hinj f g he ▸ hg)
          · exact h.2 p hp g (List.mem_cons_of_mem f hg)

/-- C9: whatever the file list (discovered or overridden), a successful
run emits at most one fact record per distinct resolved path — the
emitted `filePath`s are pairwise distinct, duplicates being skipped by
the `seen` set. -/
theorem emitted_paths_nodup :
    ∀ (parseJson : String → Option (List String)) (resolve : String → String)
      (getSource : String → Option TsNode) (factsFor : String → TsNode → FileFacts)
      (relOf : String → String) (envList : Option String) (discovered : List String),
      (∀ f src, (factsFor f src).filePath = relOf f) →
      (∀ a b : String, relOf a = relOf b → a = b) →
      ∀ out, runMain parseJson resolve getSource factsFor envList discovered = .ok out →
        (out.map FileFacts.filePath).Nodup := by
  intro parseJson resolve getSource factsFor relOf envList discovered hff hinj out hrun
  rw [runMain] at hrun
  cases hfl : mainFileList parseJson resolve envList discovered with
  | error e => rw [hfl] at hrun; cases hrun
  | ok files =>
    rw [hfl] at hrun
    cases hrun
    exact (emitLoop_nodup_aux getSource factsFor relOf hff hinj files []).1

/-- Witness for C9 at a concrete overridden run with a duplicated path. -/
theorem emitted_paths_nodup_wit :
    ((emitLoop (fun _ => some (fileOf []))
        (fun f _ => { emptyFacts with filePath := f }) ["a", "a", "b"] []).map
      FileFacts.filePath).Nodup :=
  emitted_paths_nodup (fun _ => some ["a", "a", "b"]) id (fun _ => some (fileOf []))
    (fun f _ => { emptyFacts with filePath := f }) id (some "x") []
    (fun _ _ => rfl) (fun _ _ h => h) _ rfl

/-- C10: every fact record assembled by `collectFacts` has empty
`extends` and `implements` lists — no extraction path populates them. -/
theorem collectFacts_inheritance_empty :
    ∀ (filePath sha256 moduleName : String) (checker : Checker)
      (defaultDecls : List TsNode) (exportSyms : List ExportSym)
      (importDecls : List ImportDecl) (relOf : String → String)
      (astP : TsNode → String) (file : TsNode),
      (collectFacts filePath sha256 moduleName checker defaultDecls exportSyms importDecls
          relOf astP file).extendsRel = [] ∧
      (collectFacts filePath sha256 moduleName checker defaultDecls exportSyms importDecls
          relOf astP file).implementsRel = [] :=
  fun _ _ _ _ _ _ _ _ _ _ => ⟨rfl, rfl⟩

end OntoCode
